import Mathlib

/-!
# Verification of the meshenger mesh-radio gateway

Shallow embedding of the parts of the meshenger codebase that the verified
properties concern, together with proofs about them.

Conventions of the embedding:
* Rust strings (`&str` / `String`) are modeled as `List Char`; the byte length
  of a string is the sum of the UTF-8 sizes of its characters (`utf8Len`),
  matching Rust's `str::len`.
* Machine integers (`u32`, `usize`, `u64`) are modeled as `Nat`; `i64`
  timestamps are modeled as `Int` where the source uses signed values.
* Fallible or stateful operations are modeled by explicit state passing.
* Loops that consume at least one element per iteration are modeled with an
  explicit fuel argument equal to the input length, so every definition is
  executable by kernel reduction.
-/

namespace Meshenger

/-! ## Chunker (`src/bot/outgoing.rs`: `chunk_message`, `split_utf8_by_max_bytes`)

The Rust code walks `text.lines()` (which splits at `\n` and strips a `\r`
that immediately precedes a `\n`), accumulating lines into a current chunk
whose byte length stays within `max_len`, and splitting oversized lines at
UTF-8 character boundaries. -/

/-- Byte length of a `List Char` under UTF-8, matching Rust's `str::len`. -/
def utf8Len (s : List Char) : Nat := (s.map Char.utf8Size).sum

/-- Strip one trailing carriage return, as Rust's `str::lines` does to a line
that was terminated by `\n`. -/
def stripTrailingCR (l : List Char) : List Char :=
  if l.getLast? = some '\r' then l.dropLast else l

/-- Accumulator-based model of Rust's `str::lines`: split at `'\n'`, strip a
`'\r'` immediately preceding each `'\n'`, and drop a final empty segment (a
trailing line terminator produces no extra line). `cur` holds the current
line reversed. -/
def linesAux : List Char → List Char → List (List Char)
  | [], cur => if cur = [] then [] else [cur.reverse]
  | c :: rest, cur =>
    if c = '\n' then stripTrailingCR cur.reverse :: linesAux rest []
    else linesAux rest (c :: cur)

/-- Model of Rust's `str::lines` (the iterator collected to a list). -/
def rustLines (s : List Char) : List (List Char) := linesAux s []

/-- The cut point search of `split_utf8_by_max_bytes`: the longest prefix of
`s` whose byte length is at most `budget` (the loop over `char_indices`
breaks at the first character that would overflow the budget). -/
def greedyTake : List Char → Nat → List Char
  | [], _ => []
  | c :: cs, budget =>
    if c.utf8Size ≤ budget then c :: greedyTake cs (budget - c.utf8Size) else []

/-- The `while start < s.len()` loop of `split_utf8_by_max_bytes`. Each
iteration consumes at least one character, so fuel `s.length` (supplied by
the wrapper below) is always sufficient. If the greedy cut is empty (first
character alone exceeds `max_len`), the loop takes that single character to
guarantee progress. -/
def splitUtf8Fuel : Nat → List Char → Nat → List (List Char)
  | 0, _, _ => []
  | fuel + 1, s, maxLen =>
    if s = [] then []
    else if utf8Len s ≤ maxLen then [s]
    else
      let cut := greedyTake s maxLen
      let cut := if cut = [] then s.take 1 else cut
      cut :: splitUtf8Fuel fuel (s.drop cut.length) maxLen

/-- `split_utf8_by_max_bytes` from `src/bot/outgoing.rs`. -/
def split_utf8_by_max_bytes (s : List Char) (maxLen : Nat) : List (List Char) :=
  splitUtf8Fuel s.length s maxLen

/-- The chunker's accumulator: completed chunks plus the chunk being built. -/
structure ChunkAcc where
  chunks : List (List Char)
  current : List Char
deriving Repr, DecidableEq

/-- The first flush of the loop body: if adding this line (plus a joining
newline) would exceed the limit, flush the current chunk. -/
def flushIfFull (maxLen : Nat) (line : List Char) (acc : ChunkAcc) : ChunkAcc :=
  if acc.current ≠ [] ∧ utf8Len acc.current + 1 + utf8Len line > maxLen then
    ⟨acc.chunks ++ [acc.current], []⟩
  else acc

/-- The second flush of the loop body: flush the current chunk when it is
non-empty (taken just before splitting an oversized line). -/
def flushCurrent (acc : ChunkAcc) : ChunkAcc :=
  if acc.current ≠ [] then ⟨acc.chunks ++ [acc.current], []⟩ else acc

/-- One iteration of the `for line in text.lines()` loop of `chunk_message`. -/
def chunkStep (maxLen : Nat) (acc : ChunkAcc) (line : List Char) : ChunkAcc :=
  let acc := flushIfFull maxLen line acc
  -- If a single line exceeds the limit, split it by characters.
  if utf8Len line > maxLen then
    let acc := flushCurrent acc
    let lineChunks := split_utf8_by_max_bytes line maxLen
    if lineChunks = [] then acc
    else ⟨acc.chunks ++ lineChunks.dropLast, lineChunks.getLastD []⟩
  else
    ⟨acc.chunks, if acc.current = [] then line else acc.current ++ '\n' :: line⟩

/-- `chunk_message` from `src/bot/outgoing.rs`. -/
def chunk_message (text : List Char) (maxLen : Nat) : List (List Char) :=
  if maxLen = 0 then []
  else if utf8Len text ≤ maxLen then [text]
  else
    let acc := (rustLines text).foldl (chunkStep maxLen) ⟨[], []⟩
    if acc.current = [] then acc.chunks else acc.chunks ++ [acc.current]

/-! ### Chunker lemmas -/

theorem utf8Len_nil : utf8Len [] = 0 := rfl

theorem utf8Len_cons (c : Char) (s : List Char) :
    utf8Len (c :: s) = c.utf8Size + utf8Len s := by
  simp [utf8Len]

theorem utf8Len_append (a b : List Char) :
    utf8Len (a ++ b) = utf8Len a + utf8Len b := by
  simp [utf8Len]

theorem utf8Len_pos {s : List Char} (h : s ≠ []) : 1 ≤ utf8Len s := by
  cases s with
  | nil => exact absurd rfl h
  | cons c cs =>
    have := Char.utf8Size_pos c
    simp [utf8Len_cons]
    omega

/-- The greedy cut is a prefix: gluing it back onto the rest restores `s`. -/
theorem greedyTake_append_drop (s : List Char) (b : Nat) :
    greedyTake s b ++ s.drop (greedyTake s b).length = s := by
  induction s generalizing b with
  | nil => simp [greedyTake]
  | cons c cs ih =>
    by_cases h : c.utf8Size ≤ b
    · simp only [greedyTake, if_pos h, List.length_cons, List.drop_succ_cons,
        List.cons_append, List.cons.injEq, true_and]
      exact ih (b - c.utf8Size)
    · simp [greedyTake, if_neg h]

/-- The greedy cut respects the byte budget. -/
theorem greedyTake_le (s : List Char) (b : Nat) : utf8Len (greedyTake s b) ≤ b := by
  induction s generalizing b with
  | nil => simp [greedyTake, utf8Len]
  | cons c cs ih =>
    by_cases h : c.utf8Size ≤ b
    · have := ih (b - c.utf8Size)
      simp only [greedyTake, if_pos h, utf8Len_cons]
      omega
    · simp [greedyTake, if_neg h, utf8Len]

/-- Every piece produced by the UTF-8 splitter is non-empty. -/
theorem splitUtf8Fuel_ne_nil {fuel : Nat} {s : List Char} {m : Nat} :
    ∀ p ∈ splitUtf8Fuel fuel s m, p ≠ [] := by
  induction fuel generalizing s with
  | zero => simp [splitUtf8Fuel]
  | succ fuel ih =>
    intro p hp
    by_cases hs : s = []
    · simp [splitUtf8Fuel, hs] at hp
    · by_cases hle : utf8Len s ≤ m
      · simp only [splitUtf8Fuel, if_neg hs, if_pos hle, List.mem_singleton] at hp
        exact hp ▸ hs
      · simp only [splitUtf8Fuel, if_neg hs, if_neg hle, List.mem_cons] at hp
        rcases hp with hp | hp
        · subst hp
          by_cases hg : greedyTake s m = []
          · simp only [if_pos hg]
            cases s with
            | nil => exact absurd rfl hs
            | cons c cs => simp
          · simp only [if_neg hg]; exact hg
        · exact ih p hp

/-- With enough fuel, concatenating the splitter's pieces restores the input. -/
theorem splitUtf8Fuel_flatten {fuel : Nat} {s : List Char} {m : Nat}
    (hf : s.length ≤ fuel) : (splitUtf8Fuel fuel s m).flatten = s := by
  induction fuel generalizing s with
  | zero =>
    have : s = [] := List.length_eq_zero.mp (Nat.le_zero.mp hf)
    simp [splitUtf8Fuel, this]
  | succ fuel ih =>
    by_cases hs : s = []
    · simp [splitUtf8Fuel, hs]
    · by_cases hle : utf8Len s ≤ m
      · simp [splitUtf8Fuel, if_neg hs, if_pos hle]
      · simp only [splitUtf8Fuel, if_neg hs, if_neg hle, List.flatten_cons]
        set g := greedyTake s m with hg
        set cut := if g = [] then s.take 1 else g with hcut
        have hcutlen : 1 ≤ cut.length := by
          rw [hcut]
          by_cases hgn : g = []
          · simp only [if_pos hgn, List.length_take]
            have h1 : 0 < s.length := List.length_pos.mpr hs
            omega
          · simp only [if_neg hgn]
            exact List.length_pos.mpr hgn
        have hdrop : (s.drop cut.length).length ≤ fuel := by
          have h1 : 1 ≤ s.length := by
            cases s with
            | nil => exact absurd rfl hs
            | cons c cs => simp
          simp only [List.length_drop]
          omega
        rw [ih hdrop]
        by_cases hgn : g = []
        · rw [hcut, if_pos hgn]
          cases s with
          | nil => exact absurd rfl hs
          | cons c cs => simp
        · rw [hcut, if_neg hgn, hg]
          simpa using greedyTake_append_drop s m

/-- A chunk is acceptable when it fits the byte budget or is one character
(the progress guarantee for an oversized single codepoint). -/
def chunkOk (maxLen : Nat) (c : List Char) : Prop :=
  utf8Len c ≤ maxLen ∨ c.length = 1

/-- Every piece produced by the UTF-8 splitter fits the budget or is a single
character. -/
theorem splitUtf8Fuel_ok {fuel : Nat} {s : List Char} {m : Nat} :
    ∀ p ∈ splitUtf8Fuel fuel s m, chunkOk m p := by
  induction fuel generalizing s with
  | zero => simp [splitUtf8Fuel]
  | succ fuel ih =>
    intro p hp
    by_cases hs : s = []
    · simp [splitUtf8Fuel, hs] at hp
    · by_cases hle : utf8Len s ≤ m
      · simp only [splitUtf8Fuel, if_neg hs, if_pos hle, List.mem_singleton] at hp
        exact Or.inl (hp ▸ hle)
      · simp only [splitUtf8Fuel, if_neg hs, if_neg hle, List.mem_cons] at hp
        rcases hp with hp | hp
        · subst hp
          by_cases hg : greedyTake s m = []
          · refine Or.inr ?_
            simp only [if_pos hg]
            cases s with
            | nil => exact absurd rfl hs
            | cons c cs => simp
          · exact Or.inl (by simp only [if_neg hg]; exact greedyTake_le s m)
        · exact ih p hp

theorem split_utf8_flatten (s : List Char) (m : Nat) :
    (split_utf8_by_max_bytes s m).flatten = s :=
  splitUtf8Fuel_flatten (Nat.le_refl _)

theorem split_utf8_ne_nil {s : List Char} {m : Nat} (h : s ≠ []) :
    split_utf8_by_max_bytes s m ≠ [] := by
  intro hc
  have := split_utf8_flatten s m
  rw [hc] at this
  exact h this.symm

/-- A text without a line feed is a single Rust line. -/
theorem linesAux_no_newline {s : List Char} (cur : List Char)
    (h : '\n' ∉ s) (hne : cur ≠ [] ∨ s ≠ []) :
    linesAux s cur = [cur.reverse ++ s] := by
  induction s generalizing cur with
  | nil =>
    have hcur : cur ≠ [] := by
      rcases hne with h' | h'
      · exact h'
      · exact absurd rfl h'
    simp [linesAux, hcur]
  | cons c rest ih =>
    have hc : c ≠ '\n' := fun hc => h (hc ▸ List.mem_cons_self c rest)
    have hrest : '\n' ∉ rest := fun hr => h (List.mem_cons_of_mem c hr)
    simp only [linesAux, if_neg hc]
    rw [ih (c :: cur) hrest (Or.inl (by simp))]
    simp

theorem rustLines_no_newline {s : List Char} (h : '\n' ∉ s) (hne : s ≠ []) :
    rustLines s = [s] := by
  unfold rustLines
  rw [linesAux_no_newline [] h (Or.inr hne)]
  simp

theorem dropLast_concat_getLastD {l : List (List Char)} (h : l ≠ []) :
    l.dropLast ++ [l.getLastD []] = l := by
  have h1 : l.getLastD [] = l.getLast h := by
    rw [List.getLastD_eq_getLast?, List.getLast?_eq_getLast l h]
    rfl
  rw [h1]
  exact List.dropLast_append_getLast h

/-- Invariant carried through the chunking fold: every completed chunk and
the chunk under construction are acceptable. -/
def AccOk (m : Nat) (acc : ChunkAcc) : Prop :=
  (∀ c ∈ acc.chunks, chunkOk m c) ∧ chunkOk m acc.current

theorem flushIfFull_ok {m : Nat} {acc : ChunkAcc} (line : List Char)
    (h : AccOk m acc) : AccOk m (flushIfFull m line acc) := by
  unfold flushIfFull
  split_ifs with hc
  · exact ⟨List.forall_mem_append.mpr ⟨h.1, by simpa using h.2⟩,
      Or.inl (by simp [utf8Len])⟩
  · exact h

theorem flushCurrent_ok {m : Nat} {acc : ChunkAcc} (h : AccOk m acc) :
    AccOk m (flushCurrent acc) := by
  unfold flushCurrent
  split_ifs with hc
  · exact ⟨List.forall_mem_append.mpr ⟨h.1, by simpa using h.2⟩,
      Or.inl (by simp [utf8Len])⟩
  · exact h

/-- After the conditional flush, a line that fits the budget yields an
acceptable current chunk, with the joining newline accounted for. -/
theorem flushIfFull_current_ok {m : Nat} {acc : ChunkAcc} {line : List Char}
    (hline : utf8Len line ≤ m) :
    chunkOk m (if (flushIfFull m line acc).current = [] then line
               else (flushIfFull m line acc).current ++ '\n' :: line) := by
  unfold flushIfFull
  by_cases hc : acc.current ≠ [] ∧ utf8Len acc.current + 1 + utf8Len line > m
  · simp only [if_pos hc]
    rw [if_pos trivial]
    exact Or.inl hline
  · simp only [if_neg hc]
    by_cases hcur : acc.current = []
    · rw [if_pos hcur]
      exact Or.inl hline
    · rw [if_neg hcur]
      refine Or.inl ?_
      have hsum : ¬ (utf8Len acc.current + 1 + utf8Len line > m) :=
        fun hgt => hc ⟨hcur, hgt⟩
      have hnl : utf8Len (acc.current ++ '\n' :: line) =
          utf8Len acc.current + 1 + utf8Len line := by
        rw [utf8Len_append, utf8Len_cons]
        have : ('\n' : Char).utf8Size = 1 := by decide
        omega
      omega

/-- `chunkStep` preserves the chunk invariant. -/
theorem chunkStep_ok {m : Nat} {acc : ChunkAcc} {line : List Char}
    (h : AccOk m acc) : AccOk m (chunkStep m acc line) := by
  have hsp : ∀ c ∈ (split_utf8_by_max_bytes line m).dropLast, chunkOk m c := by
    intro c hc
    exact splitUtf8Fuel_ok c ((List.dropLast_sublist _).mem hc)
  have hlast : split_utf8_by_max_bytes line m ≠ [] →
      chunkOk m ((split_utf8_by_max_bytes line m).getLastD []) := by
    intro hne
    have h1 : (split_utf8_by_max_bytes line m).getLastD [] =
        (split_utf8_by_max_bytes line m).getLast hne := by
      rw [List.getLastD_eq_getLast?, List.getLast?_eq_getLast _ hne]
      rfl
    rw [h1]
    exact splitUtf8Fuel_ok _ (List.getLast_mem hne)
  have h1 := flushIfFull_ok line h
  unfold chunkStep
  dsimp only []
  by_cases hbig : utf8Len line > m
  · simp only [if_pos hbig]
    have h2 := flushCurrent_ok h1
    by_cases hlc : split_utf8_by_max_bytes line m = []
    · simp only [if_pos hlc]
      exact h2
    · simp only [if_neg hlc]
      exact ⟨List.forall_mem_append.mpr ⟨h2.1, hsp⟩, hlast hlc⟩
  · simp only [if_neg hbig]
    exact ⟨h1.1, flushIfFull_current_ok (Nat.le_of_not_lt hbig)⟩

/-- The fold over the lines preserves the chunk invariant. -/
theorem chunkFold_ok {m : Nat} (lines : List (List Char)) (acc : ChunkAcc)
    (h : AccOk m acc) : AccOk m (lines.foldl (chunkStep m) acc) := by
  induction lines generalizing acc with
  | nil => exact h
  | cons line rest ih => exact ih _ (chunkStep_ok h)

theorem getLastD_mem {L : List (List Char)} (h : L ≠ []) : L.getLastD [] ∈ L := by
  have h1 : L.getLastD [] = L.getLast h := by
    rw [List.getLastD_eq_getLast?, List.getLast?_eq_getLast L h]
    rfl
  rw [h1]
  exact List.getLast_mem h

/-! ### Claims C1 and C3 -/

/-- Claim C1, counterexample: the chunker round-trip fails as stated. For the
text `"abc\ndef"` at `max_bytes = 3` the chunks are `["abc", "def"]`, whose
concatenation `"abcdef"` lost the newline that fell on a chunk boundary. -/
theorem chunk_roundtrip_counterexample :
    (chunk_message "abc\ndef".data 3).flatten ≠ "abc\ndef".data := by decide

/-- Claim C1, amended: for every `max_bytes ≥ 1`, concatenating the chunks of
`chunk_message` restores the text provided the text contains no line feed, or
fits within a single chunk. (Line feeds interior to a chunk are restored; a
line feed falling on a chunk boundary, and a trailing line terminator, are
dropped by the line-walking chunker.) -/
theorem chunk_message_roundtrip (text : List Char) (maxLen : Nat)
    (hmax : 1 ≤ maxLen) (h : '\n' ∉ text ∨ utf8Len text ≤ maxLen) :
    (chunk_message text maxLen).flatten = text := by
  unfold chunk_message
  rw [if_neg (by omega : ¬ maxLen = 0)]
  by_cases hle : utf8Len text ≤ maxLen
  · rw [if_pos hle]
    simp
  · rw [if_neg hle]
    have hnl : '\n' ∉ text := by
      rcases h with h | h
      · exact h
      · exact absurd h hle
    have hne : text ≠ [] := by
      intro he
      apply hle
      rw [he]
      simp [utf8Len]
    have hne2 : split_utf8_by_max_bytes text maxLen ≠ [] := split_utf8_ne_nil hne
    have hlast_ne : (split_utf8_by_max_bytes text maxLen).getLastD [] ≠ [] :=
      splitUtf8Fuel_ne_nil _ (getLastD_mem hne2)
    have e1 : flushIfFull maxLen text ⟨[], []⟩ = ⟨[], []⟩ := by
      simp [flushIfFull]
    have e2 : flushCurrent (⟨[], []⟩ : ChunkAcc) = ⟨[], []⟩ := by
      simp [flushCurrent]
    have hstep : chunkStep maxLen ⟨[], []⟩ text =
        ⟨(split_utf8_by_max_bytes text maxLen).dropLast,
          (split_utf8_by_max_bytes text maxLen).getLastD []⟩ := by
      simp only [chunkStep, e1, e2, if_pos (Nat.lt_of_not_le hle), if_neg hne2]
      simp
    rw [rustLines_no_newline hnl hne]
    simp only [List.foldl_cons, List.foldl_nil, hstep]
    rw [if_neg hlast_ne]
    rw [dropLast_concat_getLastD hne2]
    exact split_utf8_flatten text maxLen

/-- Witness for `chunk_message_roundtrip` at a concrete input. -/
theorem chunk_message_roundtrip_witness :
    (1 ≤ 2 ∧ '\n' ∉ "héllo".data) ∧
      (chunk_message "héllo".data 2).flatten = "héllo".data :=
  ⟨⟨by decide, by decide⟩,
    chunk_message_roundtrip ("héllo".data) 2 (by decide) (Or.inl (by decide))⟩

/-- Claim C3, counterexample: the universal byte bound fails as stated. With
`max_bytes = 1`, the two-byte character `é` is emitted as its own chunk of
byte length 2 (the progress rule for an oversized codepoint). -/
theorem chunk_budget_counterexample :
    ¬ ∀ c ∈ chunk_message "é!".data 1, utf8Len c ≤ 1 := by decide

/-- Claim C3, amended: every chunk produced by `chunk_message` has byte
length at most `max_bytes`, except that a chunk may consist of exactly one
codepoint whose UTF-8 encoding exceeds `max_bytes` (so the universal bound
and the progress policy are reconciled: an oversized chunk is always a
single character). -/
theorem chunk_message_budget (text : List Char) (maxLen : Nat) :
    ∀ c ∈ chunk_message text maxLen, utf8Len c ≤ maxLen ∨ c.length = 1 := by
  intro c hc
  unfold chunk_message at hc
  by_cases h0 : maxLen = 0
  · rw [if_pos h0] at hc
    simp at hc
  · rw [if_neg h0] at hc
    by_cases hle : utf8Len text ≤ maxLen
    · rw [if_pos hle] at hc
      rw [List.mem_singleton.mp hc]
      exact Or.inl hle
    · rw [if_neg hle] at hc
      have hinv : AccOk maxLen ((rustLines text).foldl (chunkStep maxLen) ⟨[], []⟩) :=
        chunkFold_ok _ _ ⟨by simp, Or.inl (by simp [utf8Len])⟩
      simp only [] at hc
      by_cases hcur : ((rustLines text).foldl (chunkStep maxLen) ⟨[], []⟩).current = []
      · rw [if_pos hcur] at hc
        exact hinv.1 c hc
      · rw [if_neg hcur] at hc
        rcases List.mem_append.mp hc with hc | hc
        · exact hinv.1 c hc
        · rw [List.mem_singleton.mp hc]
          exact hinv.2

/-- Witness for `chunk_message_budget` at a concrete input. -/
theorem chunk_message_budget_witness :
    ("é".data ∈ chunk_message "é!".data 1) ∧
      (utf8Len "é".data ≤ 1 ∨ ("é".data).length = 1) :=
  ⟨by decide, chunk_message_budget ("é!".data) 1 ("é".data) (by decide)⟩

/-! ## Rate limiter (`src/bot/rate_limit.rs`)

`RateLimiter::check` keeps, per sender, the list of admission timestamps.
`Instant::duration_since` is modeled by saturating natural subtraction
(which is its behavior). The `HashMap<u32, Vec<Instant>>` is modeled as a
total function from node ids to timestamp lists; an absent entry is the
empty list, as with `entry(..).or_default()`. -/

structure RateLimiter where
  max_commands : Nat
  window_secs : Nat
  commands : Nat → List Nat

/-- `RateLimiter::new`: empty timestamp map. -/
def RateLimiter.new (max_commands window_secs : Nat) : RateLimiter :=
  ⟨max_commands, window_secs, fun _ => []⟩

/-- `RateLimiter::check`: with `max_commands = 0`, admit unconditionally
without touching the map. Otherwise `retain` the sender's timestamps that
are younger than the window, then deny if `max_commands` or more remain
(writing back only the pruned list), else record `now` and admit. -/
def RateLimiter.check (rl : RateLimiter) (node_id : Nat) (now : Nat) :
    Bool × RateLimiter :=
  if rl.max_commands = 0 then (true, rl)
  else
    let timestamps :=
      (rl.commands node_id).filter (fun t => now - t < rl.window_secs)
    if rl.max_commands ≤ timestamps.length then
      (false, { rl with
        commands := fun n => if n = node_id then timestamps else rl.commands n })
    else
      (true, { rl with
        commands := fun n => if n = node_id then timestamps ++ [now]
                             else rl.commands n })

/-- A sequence of `check` calls by one sender at the given times: the list of
admission results and the final limiter state. -/
def RateLimiter.runChecks (rl : RateLimiter) (node_id : Nat) :
    List Nat → List Bool × RateLimiter
  | [] => ([], rl)
  | t :: ts =>
    let r := rl.check node_id t
    let rest := r.2.runChecks node_id ts
    (r.1 :: rest.1, rest.2)

/-- Timestamps within the window of a call time are never pruned. -/
theorem filter_in_window {W t0 : Nat} {k : List Nat}
    (hk : ∀ t ∈ k, t0 ≤ t ∧ t < t0 + W) {now : Nat}
    (h2 : now < t0 + W) : k.filter (fun t => now - t < W) = k := by
  apply List.filter_eq_self.mpr
  intro t ht
  have := hk t ht
  simp only [decide_eq_true_eq]
  omega

/-- Characterization of a run of `check` calls whose times all fall inside
one window anchored at `t0`, starting from a state whose entry for the
sender holds `k` in-window timestamps: the first `max - |k|` calls are
admitted and recorded in order, the rest are denied. -/
theorem runChecks_spec (M W node t0 : Nat) (hM : 1 ≤ M) :
    ∀ (ts : List Nat) (rl : RateLimiter) (k : List Nat),
      rl.max_commands = M → rl.window_secs = W → rl.commands node = k →
      (∀ t ∈ k, t0 ≤ t ∧ t < t0 + W) → (∀ t ∈ ts, t0 ≤ t ∧ t < t0 + W) →
      (rl.runChecks node ts).1 =
          List.replicate (min ts.length (M - k.length)) true ++
            List.replicate (ts.length - (M - k.length)) false
        ∧ (rl.runChecks node ts).2.commands node = k ++ ts.take (M - k.length)
        ∧ (rl.runChecks node ts).2.max_commands = M
        ∧ (rl.runChecks node ts).2.window_secs = W := by
  intro ts
  induction ts with
  | nil =>
    intro rl k hmax hwin hcmd hk hts
    simp [RateLimiter.runChecks, hmax, hwin, hcmd]
  | cons t ts ih =>
    intro rl k hmax hwin hcmd hk hts
    have ht : t0 ≤ t ∧ t < t0 + W := hts t (List.mem_cons_self t ts)
    have hts' : ∀ u ∈ ts, t0 ≤ u ∧ u < t0 + W :=
      fun u hu => hts u (List.mem_cons_of_mem t hu)
    have hM0 : ¬ rl.max_commands = 0 := by omega
    have hfilter : (rl.commands node).filter (fun u => t - u < rl.window_secs) = k := by
      rw [hcmd, hwin]
      exact filter_in_window hk ht.2
    by_cases hfull : M ≤ k.length
    · -- denied: the pruned (unchanged) list is written back
      have hcheck : rl.check node t =
          (false, { rl with
            commands := fun n => if n = node then k else rl.commands n }) := by
        unfold RateLimiter.check
        rw [if_neg hM0]
        simp only [hfilter]
        rw [if_pos (by rw [hmax]; exact hfull)]
      have hrest := ih { rl with
          commands := fun n => if n = node then k else rl.commands n } k
        hmax hwin (by simp) hk hts'
      simp only [RateLimiter.runChecks, hcheck]
      have hd : M - k.length = 0 := by omega
      refine ⟨?_, ?_, hrest.2.2.1, hrest.2.2.2⟩
      · rw [hrest.1, hd]
        simp [List.replicate_succ]
      · rw [hrest.2.1, hd]
        simp
    · -- admitted: `t` is appended to the entry
      have hcheck : rl.check node t =
          (true, { rl with
            commands := fun n => if n = node then k ++ [t]
                                 else rl.commands n }) := by
        unfold RateLimiter.check
        rw [if_neg hM0]
        simp only [hfilter]
        rw [if_neg (by rw [hmax]; omega)]
      have hk' : ∀ u ∈ k ++ [t], t0 ≤ u ∧ u < t0 + W := by
        intro u hu
        rcases List.mem_append.mp hu with hu | hu
        · exact hk u hu
        · rw [List.mem_singleton.mp hu]
          exact ht
      have hrest := ih { rl with
          commands := fun n => if n = node then k ++ [t] else rl.commands n }
        (k ++ [t]) hmax hwin (by simp) hk' hts'
      simp only [RateLimiter.runChecks, hcheck]
      have hd : 1 ≤ M - k.length := by omega
      refine ⟨?_, ?_, hrest.2.2.1, hrest.2.2.2⟩
      · rw [hrest.1]
        have e1 : min (ts.length + 1) (M - k.length) =
            min ts.length (M - (k ++ [t]).length) + 1 := by
          simp only [List.length_append, List.length_singleton]
          omega
        have e2 : (ts.length + 1) - (M - k.length) =
            ts.length - (M - (k ++ [t]).length) := by
          simp only [List.length_append, List.length_singleton]
          omega
        simp only [List.length_cons, e1, e2, List.replicate_succ, List.cons_append]
      · rw [hrest.2.1]
        have e3 : M - k.length = (M - (k ++ [t]).length) + 1 := by
          simp only [List.length_append, List.length_singleton]
          omega
        rw [e3, List.take_succ_cons]
        simp

/-- Claim C6: the sliding-window rate limiter. (i) With `max = 0` every call
is admitted without touching the state. (ii) A denied call records no
timestamp: the sender's entry after the call is a sublist of (the pruning
of) the entry before it. (iii) From a fresh limiter, for calls within one
window anchored at the first call's time `t0`, the first `M` calls are
admitted and the following ones (in particular the `M+1`-th) are denied; and
any later call at a time `t'` with `t0 + W ≤ t'` is admitted again. -/
theorem rate_limiter_sliding_window :
    (∀ (rl : RateLimiter) (node now : Nat), rl.max_commands = 0 →
      (rl.check node now).1 = true ∧ (rl.check node now).2 = rl)
    ∧ (∀ (rl : RateLimiter) (node now : Nat), (rl.check node now).1 = false →
      ((rl.check node now).2.commands node).Sublist (rl.commands node))
    ∧ (∀ (M W node t0 : Nat) (ts : List Nat), 1 ≤ M →
      (∀ t ∈ ts, t0 ≤ t ∧ t < t0 + W) → ts.headD t0 = t0 →
      ((RateLimiter.new M W).runChecks node ts).1 =
          List.replicate (min ts.length M) true ++
            List.replicate (ts.length - M) false
        ∧ ∀ t', t0 + W ≤ t' →
            (((RateLimiter.new M W).runChecks node ts).2.check node t').1 = true) := by
  refine ⟨?_, ?_, ?_⟩
  · intro rl node now h0
    unfold RateLimiter.check
    rw [if_pos h0]
    exact ⟨rfl, rfl⟩
  · intro rl node now hdenied
    unfold RateLimiter.check at hdenied ⊢
    by_cases h0 : rl.max_commands = 0
    · rw [if_pos h0] at hdenied
      exact absurd hdenied (by simp)
    · rw [if_neg h0] at hdenied ⊢
      by_cases hfull : rl.max_commands ≤
          ((rl.commands node).filter (fun t => now - t < rl.window_secs)).length
      · rw [if_pos hfull]
        simp only [if_pos rfl]
        exact List.filter_sublist _
      · rw [if_neg hfull] at hdenied
        exact absurd hdenied (by simp)
  · intro M W node t0 ts hM hts hhead
    have hrun := runChecks_spec M W node t0 hM ts (RateLimiter.new M W) []
      rfl rfl rfl (by simp) hts
    refine ⟨?_, ?_⟩
    · rw [hrun.1]
      simp
    · intro t' ht'
      set st := ((RateLimiter.new M W).runChecks node ts).2 with hst
      have hcmd : st.commands node = ts.take M := by
        rw [hrun.2.1]
        simp
      have hlen : ((st.commands node).filter
          (fun t => t' - t < st.window_secs)).length < M := by
        rw [hcmd, hrun.2.2.2]
        cases ts with
        | nil => simpa using hM
        | cons a ts' =>
          have ha : a = t0 := by simpa using hhead
          obtain ⟨M', rfl⟩ : ∃ M', M = M' + 1 := ⟨M - 1, by omega⟩
          have hdrop : (decide (t' - t0 < W)) = false := by
            simp only [decide_eq_false_iff_not]
            omega
          rw [List.take_succ_cons, ha, List.filter_cons]
          simp only [hdrop, Bool.false_eq_true, if_false]
          have h1 := List.length_filter_le
            (fun t => decide (t' - t < W)) (ts'.take M')
          have h2 : (ts'.take M').length ≤ M' := List.length_take_le M' ts'
          omega
      have hmaxst : st.max_commands = M := hrun.2.2.1
      unfold RateLimiter.check
      rw [if_neg (by omega : ¬ st.max_commands = 0)]
      rw [if_neg (by omega : ¬ st.max_commands ≤
        ((st.commands node).filter (fun t => t' - t < st.window_secs)).length)]

/-- Witness for `rate_limiter_sliding_window` at concrete inputs: with
max 1 and window 10, sender 7's calls at times 0 and 5 give
admitted-then-denied; a call at time 10 is admitted again; a limiter with
max 0 admits; and the denied call at time 6 leaves a sublist entry. -/
theorem rate_limiter_sliding_window_witness :
    ((RateLimiter.new 1 10).runChecks 7 [0, 5]).1 = [true, false]
    ∧ (((RateLimiter.new 1 10).runChecks 7 [0, 5]).2.check 7 10).1 = true
    ∧ ((RateLimiter.new 0 10).check 7 3).1 = true
    ∧ ((((RateLimiter.new 1 10).runChecks 7 [0, 5]).2.check 7 6).2.commands 7).Sublist
        (((RateLimiter.new 1 10).runChecks 7 [0, 5]).2.commands 7) := by
  have h3 := rate_limiter_sliding_window.2.2 1 10 7 0 [0, 5]
    (by decide) (by decide) (by decide)
  refine ⟨h3.1.trans (by decide), h3.2 10 (by decide), ?_, ?_⟩
  · exact (rate_limiter_sliding_window.1 (RateLimiter.new 0 10) 7 3 rfl).1
  · exact rate_limiter_sliding_window.2.1
      ((RateLimiter.new 1 10).runChecks 7 [0, 5]).2 7 6 (by decide)

/-! ## Probe selector (`src/bot/runtime.rs`: `select_probe_target_adaptive`)

The selector is generic over the candidate query and the cooldown check. The
query (`Db::recent_rf_nodes_missing_hops`) returns candidates newest-first
and at most `limit` of them; it is taken here as a pure function
`fetch : Nat → List Nat` (the error-free instance of the generic
`Result`-returning closure — the verified properties concern successful
queries). The `HashSet` of already-considered ids is a list used only for
membership tests. -/

structure ProbeSelection where
  target : Option Nat
  cooldown_skipped : Nat
  queried_limits : Nat
  had_candidates : Bool
deriving Repr, DecidableEq

/-- The inner `for node_id in candidates` loop: skip ids already considered,
return the first fresh candidate that passes `can_send`, and count cooldown
skips. Returns the selection, the considered set, and the skip count. -/
def scanCandidates (can_send : Nat → Bool) :
    List Nat → Nat → List Nat → Option Nat × List Nat × Nat
  | seen, skipped, [] => (none, seen, skipped)
  | seen, skipped, c :: cs =>
    if c ∈ seen then scanCandidates can_send seen skipped cs
    else if can_send c then (some c, c :: seen, skipped)
    else scanCandidates can_send (c :: seen) (skipped + 1) cs

/-- The `for &limit in limits` loop of `select_probe_target_adaptive`:
query up to `limit` candidates, stop on an empty page, return on a
selection, and expand to the next window only when the page was full. -/
def selectAux (fetch : Nat → List Nat) (can_send : Nat → Bool) :
    List Nat → List Nat → Nat → Nat → Bool → ProbeSelection
  | [], _, skipped, queried, had => ⟨none, skipped, queried, had⟩
  | limit :: rest, seen, skipped, queried, had =>
    let candidates := fetch limit
    if candidates.isEmpty then ⟨none, skipped, queried + 1, had⟩
    else
      match scanCandidates can_send seen skipped candidates with
      | (some t, _, skipped') => ⟨some t, skipped', queried + 1, true⟩
      | (none, seen', skipped') =>
        if candidates.length < limit then ⟨none, skipped', queried + 1, true⟩
        else selectAux fetch can_send rest seen' skipped' (queried + 1) true

/-- `select_probe_target_adaptive` from `src/bot/runtime.rs`. -/
def select_probe_target_adaptive (limits : List Nat) (fetch : Nat → List Nat)
    (can_send : Nat → Bool) : ProbeSelection :=
  selectAux fetch can_send limits [] 0 0 false

/-- When everything considered so far failed the cooldown check, the scan
selects exactly the first candidate passing `can_send`. -/
theorem scan_fst (can_send : Nat → Bool) {seen : List Nat} (skipped : Nat)
    (cands : List Nat) (hseen : ∀ y ∈ seen, can_send y = false) :
    (scanCandidates can_send seen skipped cands).1 = cands.find? can_send := by
  induction cands generalizing seen skipped with
  | nil => rfl
  | cons c cs ih =>
    by_cases hc : c ∈ seen
    · have hcs : can_send c = false := hseen c hc
      simp only [scanCandidates, if_pos hc]
      rw [List.find?_cons_of_neg cs (by simp [hcs])]
      exact ih skipped hseen
    · by_cases hsend : can_send c
      · simp only [scanCandidates, if_neg hc, if_pos hsend]
        rw [List.find?_cons_of_pos cs hsend]
      · simp only [scanCandidates, if_neg hc, if_neg hsend]
        rw [List.find?_cons_of_neg cs (by simpa using hsend)]
        exact ih (skipped + 1) (by
          intro y hy
          rcases List.mem_cons.mp hy with hy | hy
          · rw [hy]
            simpa using hsend
          · exact hseen y hy)

/-- Considered-set invariant: after a scan, everything in the considered set
failed `can_send` unless it is the selected candidate. -/
theorem scan_seen (can_send : Nat → Bool) {seen : List Nat} (skipped : Nat)
    (cands : List Nat) (hseen : ∀ y ∈ seen, can_send y = false) :
    ∀ y ∈ (scanCandidates can_send seen skipped cands).2.1,
      can_send y = false ∨ (scanCandidates can_send seen skipped cands).1 = some y := by
  induction cands generalizing seen skipped with
  | nil =>
    intro y hy
    exact Or.inl (hseen y hy)
  | cons c cs ih =>
    by_cases hc : c ∈ seen
    · simp only [scanCandidates, if_pos hc]
      exact ih skipped hseen
    · by_cases hsend : can_send c
      · simp only [scanCandidates, if_neg hc, if_pos hsend]
        intro y hy
        rcases List.mem_cons.mp hy with hy | hy
        · exact Or.inr (by rw [hy])
        · exact Or.inl (hseen y hy)
      · simp only [scanCandidates, if_neg hc, if_neg hsend]
        exact ih (skipped + 1) (by
          intro y hy
          rcases List.mem_cons.mp hy with hy | hy
          · rw [hy]
            simpa using hsend
          · exact hseen y hy)

/-- When every fetched candidate is under cooldown, no window selects. -/
theorem selectAux_none (fetch : Nat → List Nat) (can_send : Nat → Bool)
    (hall : ∀ l : Nat, ∀ y ∈ fetch l, can_send y = false) :
    ∀ (limits seen : List Nat) (skipped queried : Nat) (had : Bool),
      (∀ y ∈ seen, can_send y = false) →
      (selectAux fetch can_send limits seen skipped queried had).target = none := by
  intro limits
  induction limits with
  | nil =>
    intro seen skipped queried had _
    rfl
  | cons limit rest ih =>
    intro seen skipped queried had hseen
    by_cases hemp : (fetch limit).isEmpty
    · simp [selectAux, hemp]
    · have hfind : (fetch limit).find? can_send = none :=
        List.find?_eq_none.mpr (fun x hx => by simp [hall limit x hx])
      have hfst := scan_fst can_send skipped (fetch limit) hseen
      rcases hp : scanCandidates can_send seen skipped (fetch limit) with ⟨o, seen', skipped'⟩
      rw [hp] at hfst
      simp only at hfst
      rw [hfind] at hfst
      subst hfst
      have hseen' : ∀ y ∈ seen', can_send y = false := by
        have := scan_seen can_send skipped (fetch limit) hseen
        rw [hp] at this
        intro y hy
        rcases this y hy with h | h
        · exact h
        · simp at h
      simp only [selectAux, hp]
      rw [if_neg (by simpa using hemp)]
      by_cases hlt : (fetch limit).length < limit
      · simp [hlt]
      · simp only [if_neg hlt]
        exact ih seen' skipped' (queried + 1) true hseen'

/-- Claim C7: the adaptive probe selector. (i) If the first window's
candidate list contains a node passing the cooldown check, the selector
returns the first such node in list order (the list is ordered most recently
seen first by the store query). (ii) If every fetched candidate fails the
cooldown check, no target is returned. (iii) Under the store's guarantee
that a query returns at most `limit` rows, a second window is fetched only
when the first returned exactly `limit` rows and contained no selectable
candidate; and (iv) the same holds at every step of the window loop: from
any intermediate state, a further window is fetched only when the current
one was a full page whose scan (against the already-considered set)
selected nothing. -/
theorem select_probe_target_adaptive_spec (fetch : Nat → List Nat)
    (can_send : Nat → Bool) :
    (∀ (l₀ : Nat) (rest : List Nat) (x : Nat),
      (fetch l₀).find? can_send = some x →
      (select_probe_target_adaptive (l₀ :: rest) fetch can_send).target = some x)
    ∧ (∀ limits : List Nat, (∀ l : Nat, ∀ y ∈ fetch l, can_send y = false) →
      (select_probe_target_adaptive limits fetch can_send).target = none)
    ∧ (∀ (l₀ : Nat) (rest : List Nat), (fetch l₀).length ≤ l₀ →
      2 ≤ (select_probe_target_adaptive (l₀ :: rest) fetch can_send).queried_limits →
      (fetch l₀).length = l₀ ∧ (fetch l₀).find? can_send = none)
    ∧ (∀ (l₀ : Nat) (rest seen : List Nat) (skipped queried : Nat) (had : Bool),
      (fetch l₀).length ≤ l₀ →
      queried + 2 ≤ (selectAux fetch can_send (l₀ :: rest) seen skipped queried had).queried_limits →
      (fetch l₀).length = l₀ ∧
        (scanCandidates can_send seen skipped (fetch l₀)).1 = none) := by
  refine ⟨?_, ?_, ?_, ?_⟩
  · intro l₀ rest x hfind
    have hemp : (fetch l₀).isEmpty = false := by
      cases hf : fetch l₀ with
      | nil => rw [hf] at hfind; simp at hfind
      | cons a as => simp
    have hfst := scan_fst can_send 0 (fetch l₀) (fun y hy => absurd hy (List.not_mem_nil y))
    rcases hp : scanCandidates can_send [] 0 (fetch l₀) with ⟨o, seen', skipped'⟩
    rw [hp] at hfst
    simp only at hfst
    rw [hfind] at hfst
    subst hfst
    unfold select_probe_target_adaptive
    simp [selectAux, hemp, hp]
  · intro limits hall
    exact selectAux_none fetch can_send hall limits [] 0 0 false
      (fun y hy => absurd hy (List.not_mem_nil y))
  · intro l₀ rest hlen h2
    by_cases hemp : (fetch l₀).isEmpty
    · exfalso
      unfold select_probe_target_adaptive at h2
      simp [selectAux, hemp] at h2
    · rcases hp : scanCandidates can_send [] 0 (fetch l₀) with ⟨o, seen', skipped'⟩
      have hfst := scan_fst can_send 0 (fetch l₀) (fun y hy => absurd hy (List.not_mem_nil y))
      rw [hp] at hfst
      simp only at hfst
      cases o with
      | some t =>
        exfalso
        unfold select_probe_target_adaptive at h2
        simp only [selectAux, hp] at h2
        rw [if_neg (by simpa using hemp)] at h2
        simp at h2
      | none =>
        by_cases hlt : (fetch l₀).length < l₀
        · exfalso
          unfold select_probe_target_adaptive at h2
          simp only [selectAux, hp] at h2
          rw [if_neg (by simpa using hemp), if_pos hlt] at h2
          simp at h2
        · exact ⟨by omega, hfst.symm⟩
  · intro l₀ rest seen skipped queried had hlen h2
    by_cases hemp : (fetch l₀).isEmpty
    · exfalso
      simp [selectAux, hemp] at h2
    · rcases hp : scanCandidates can_send seen skipped (fetch l₀) with ⟨o, seen', skipped'⟩
      cases o with
      | some t =>
        exfalso
        simp only [selectAux, hp] at h2
        rw [if_neg (by simpa using hemp)] at h2
        simp at h2
      | none =>
        by_cases hlt : (fetch l₀).length < l₀
        · exfalso
          simp only [selectAux, hp] at h2
          rw [if_neg (by simpa using hemp), if_pos hlt] at h2
          simp at h2
        · exact ⟨by omega, rfl⟩

/-- Witness for `select_probe_target_adaptive_spec` at concrete inputs. -/
theorem select_probe_target_adaptive_spec_witness :
    (select_probe_target_adaptive [10, 25]
      (fun l => if l = 10 then [3, 4] else [])
      (fun n => decide (n = 4))).target = some 4
    ∧ (select_probe_target_adaptive [10, 25]
      (fun l => if l = 10 then [3, 4] else [])
      (fun _ => false)).target = none
    ∧ ((fun l => if l = 10 then [1, 2, 3, 4, 5, 6, 7, 8, 9, 10] else ([] : List Nat)) 10).length = 10
    ∧ ((fun l => if l = 10 then [1, 2, 3, 4, 5, 6, 7, 8, 9, 10] else ([] : List Nat)) 10).find?
        (fun _ => false) = none
    ∧ (scanCandidates (fun _ => false) [] 0
        ((fun l => if l = 10 then [1, 2, 3, 4, 5, 6, 7, 8, 9, 10] else ([] : List Nat)) 10)).1 =
      none := by
  have h3 := (select_probe_target_adaptive_spec
    (fun l => if l = 10 then [1, 2, 3, 4, 5, 6, 7, 8, 9, 10] else ([] : List Nat))
    (fun _ => false)).2.2.1 10 [25] (by decide) (by decide)
  have h4 := (select_probe_target_adaptive_spec
    (fun l => if l = 10 then [1, 2, 3, 4, 5, 6, 7, 8, 9, 10] else ([] : List Nat))
    (fun _ => false)).2.2.2 10 [25] [] 0 0 false (by decide) (by decide)
  exact ⟨(select_probe_target_adaptive_spec _ _).1 10 [25] 4 (by decide),
    (select_probe_target_adaptive_spec _ _).2.1 [10, 25] (by
      intro l y hy
      by_cases h : l = 10 <;> simp [h] at hy ⊢),
    h3.1, h3.2, h4.2⟩

/-! ## Response queueing (`src/bot/outgoing.rs`: `queue_responses`;
`src/message.rs`: `Response`, `Destination`)

`MeshChannel::new` belongs to the external meshtastic crate, so the
embedding abstracts it as a validity predicate `validChannel` on channel
indices (a successful conversion wraps the same index). `MessageContext`
carries further fields in the source (name, RF metadata, …); only
`sender_id` is read by `queue_responses`, so only it is modeled. The result
list records the `queue_message` pushes in order. -/

inductive Destination
  | Sender
  | Broadcast
  | Node (id : Nat)
deriving Repr, DecidableEq

inductive PacketDestination
  | Broadcast
  | Node (id : Nat)
deriving Repr, DecidableEq

inductive OutgoingKind
  | Text
  | Traceroute (target_node : Nat)
deriving Repr, DecidableEq

structure MessageContext where
  sender_id : Nat
deriving Repr, DecidableEq

structure Response where
  text : List Char
  destination : Destination
  channel : Nat
  reply_id : Option Nat
deriving Repr, DecidableEq

structure OutgoingMeshMessage where
  kind : OutgoingKind
  text : List Char
  destination : PacketDestination
  channel : Nat
  from_node : Nat
  to_node : Option Nat
  mesh_channel : Nat
  reply_id : Option Nat
deriving Repr, DecidableEq

/-- The body of the `for response in responses` loop of `queue_responses`:
the messages queued for one response. A response whose channel index fails
conversion queues nothing (`continue`). Only the first chunk carries the
reply id. -/
def queue_response_msgs (validChannel : Nat → Bool) (max_message_len : Nat)
    (ctx : MessageContext) (my_node_id : Nat) (response : Response) :
    List OutgoingMeshMessage :=
  let destination := match response.destination with
    | Destination.Sender => PacketDestination.Node ctx.sender_id
    | Destination.Broadcast => PacketDestination.Broadcast
    | Destination.Node id => PacketDestination.Node id
  if validChannel response.channel then
    let to_node := match response.destination with
      | Destination.Sender => some ctx.sender_id
      | Destination.Node id => some id
      | Destination.Broadcast => none
    (chunk_message response.text max_message_len).enum.map (fun ic =>
      { kind := OutgoingKind.Text
        text := ic.2
        destination := destination
        channel := response.channel
        from_node := my_node_id
        to_node := to_node
        mesh_channel := response.channel
        -- Only the first chunk carries the reply_id
        reply_id := if ic.1 = 0 then response.reply_id else none })
  else []

/-- `queue_responses` from `src/bot/outgoing.rs`: the messages pushed onto
the outgoing queue, in push order. -/
def queue_responses (validChannel : Nat → Bool) (max_message_len : Nat)
    (ctx : MessageContext) (responses : List Response) (my_node_id : Nat) :
    List OutgoingMeshMessage :=
  responses.foldl
    (fun acc response =>
      acc ++ queue_response_msgs validChannel max_message_len ctx my_node_id response)
    []

theorem foldl_append_eq_flatten {α β : Type} (g : α → List β) :
    ∀ (rs : List α) (init : List β),
      rs.foldl (fun acc r => acc ++ g r) init = init ++ (rs.map g).flatten := by
  intro rs
  induction rs with
  | nil => simp
  | cons r rest ih =>
    intro init
    simp only [List.foldl_cons, List.map_cons, List.flatten_cons]
    rw [ih]
    simp

theorem queue_responses_eq (v : Nat → Bool) (mlen : Nat) (ctx : MessageContext)
    (rs : List Response) (my : Nat) :
    queue_responses v mlen ctx rs my =
      (rs.map (queue_response_msgs v mlen ctx my)).flatten := by
  unfold queue_responses
  rw [foldl_append_eq_flatten]
  simp

theorem enumFrom_map_first (a : Option Nat) (f : Nat × List Char → OutgoingMeshMessage)
    (hf : ∀ ic, (f ic).reply_id = if ic.1 = 0 then a else none) :
    ∀ (l : List (List Char)) (n : Nat), 1 ≤ n →
      ((List.enumFrom n l).map f).map (fun msg => msg.reply_id) =
        List.replicate l.length none := by
  intro l
  induction l with
  | nil => intro n _; rfl
  | cons c cs ih =>
    intro n hn
    simp only [List.enumFrom, List.map_cons, List.length_cons, List.replicate_succ]
    rw [hf ⟨n, c⟩]
    simp only [if_neg (by omega : ¬ n = 0)]
    rw [ih (n + 1) (by omega)]

/-- Claim C8: destination and reply-id preservation in `queue_responses`.
(i) Responses queue independently and in order. (ii) For a response with a
valid channel: destination `Sender` yields `to_node = some ctx.sender_id`,
`Broadcast` yields `to_node = none`, `Node x` yields `to_node = some x`
(and the packet destination matches); the first chunk of the response
carries its `reply_id` and every later chunk carries `none`. -/
theorem queue_responses_dest_reply (v : Nat → Bool) (mlen : Nat)
    (ctx : MessageContext) (my : Nat) :
    (∀ rs₁ rs₂ : List Response,
      queue_responses v mlen ctx (rs₁ ++ rs₂) my =
        queue_responses v mlen ctx rs₁ my ++ queue_responses v mlen ctx rs₂ my)
    ∧ ∀ r : Response, v r.channel = true →
      (∀ msg ∈ queue_responses v mlen ctx [r] my,
        msg.to_node = (match r.destination with
          | Destination.Sender => some ctx.sender_id
          | Destination.Broadcast => none
          | Destination.Node x => some x)
        ∧ msg.destination = (match r.destination with
          | Destination.Sender => PacketDestination.Node ctx.sender_id
          | Destination.Broadcast => PacketDestination.Broadcast
          | Destination.Node x => PacketDestination.Node x))
      ∧ ((queue_responses v mlen ctx [r] my).map (fun msg => msg.reply_id) =
        if queue_responses v mlen ctx [r] my = [] then []
        else r.reply_id ::
          List.replicate ((queue_responses v mlen ctx [r] my).length - 1) none) := by
  constructor
  · intro rs₁ rs₂
    simp [queue_responses_eq]
  · intro r hv
    have hone : queue_responses v mlen ctx [r] my =
        queue_response_msgs v mlen ctx my r := by
      rw [queue_responses_eq]
      simp
    refine ⟨?_, ?_⟩
    · intro msg hmsg
      rw [hone] at hmsg
      unfold queue_response_msgs at hmsg
      rw [if_pos hv] at hmsg
      obtain ⟨ic, _, hic⟩ := List.mem_map.mp hmsg
      rw [← hic]
      cases r.destination <;> exact ⟨rfl, rfl⟩
    · rw [hone]
      unfold queue_response_msgs
      rw [if_pos hv]
      cases hch : chunk_message r.text mlen with
      | nil => simp
      | cons c cs =>
        rw [List.enum_cons]
        simp only [List.map_cons]
        rw [if_neg (List.cons_ne_nil _ _)]
        simp only [List.length_cons, List.length_map, List.enumFrom_length,
          Nat.add_sub_cancel, List.cons.injEq]
        refine ⟨by simp, ?_⟩
        apply enumFrom_map_first
        · intro ic
          rfl
        · exact Nat.le_refl 1

/-- Witness for `queue_responses_dest_reply` at concrete inputs: a response
of seven bytes chunked at 3 to the sender on channel 0 with reply id 42. -/
theorem queue_responses_dest_reply_witness :
    (∀ msg ∈ queue_responses (fun c => decide (c ≤ 7)) 3 ⟨5⟩
        [⟨"abcdefg".data, Destination.Sender, 0, some 42⟩] 9,
      msg.to_node = some 5 ∧ msg.destination = PacketDestination.Node 5)
    ∧ (queue_responses (fun c => decide (c ≤ 7)) 3 ⟨5⟩
        [⟨"abcdefg".data, Destination.Sender, 0, some 42⟩] 9).map
          (fun msg => msg.reply_id) = [some 42, none, none] := by
  have h := (queue_responses_dest_reply (fun c => decide (c ≤ 7)) 3 ⟨5⟩ 9).2
    ⟨"abcdefg".data, Destination.Sender, 0, some 42⟩ (by decide)
  exact ⟨fun msg hmsg => h.1 msg hmsg, h.2.trans (by decide)⟩

/-- Claim C10: a response whose channel index cannot be converted to a valid
mesh channel is dropped silently: removing it from the list leaves the
queued output unchanged, so it contributes no message and the other
responses are queued normally. -/
theorem queue_responses_invalid_channel_dropped (v : Nat → Bool) (mlen : Nat)
    (ctx : MessageContext) (my : Nat) (rs₁ rs₂ : List Response) (r : Response)
    (h : v r.channel = false) :
    queue_responses v mlen ctx (rs₁ ++ r :: rs₂) my =
      queue_responses v mlen ctx (rs₁ ++ rs₂) my := by
  have hr : queue_response_msgs v mlen ctx my r = [] := by
    unfold queue_response_msgs
    rw [if_neg (by simp [h])]
  simp [queue_responses_eq, hr]

/-- Witness for `queue_responses_invalid_channel_dropped`: channel 9 is not
a valid mesh channel (valid indices are 0–7), so the response is dropped
while its neighbors queue normally. -/
theorem queue_responses_invalid_channel_dropped_witness :
    queue_responses (fun c => decide (c ≤ 7)) 10 ⟨5⟩
        [⟨"ok".data, Destination.Broadcast, 0, none⟩,
         ⟨"bad".data, Destination.Sender, 9, some 1⟩,
         ⟨"on".data, Destination.Node 3, 1, none⟩] 9 =
      queue_responses (fun c => decide (c ≤ 7)) 10 ⟨5⟩
        [⟨"ok".data, Destination.Broadcast, 0, none⟩,
         ⟨"on".data, Destination.Node 3, 1, none⟩] 9 :=
  queue_responses_invalid_channel_dropped (fun c => decide (c ≤ 7)) 10 ⟨5⟩ 9
    [⟨"ok".data, Destination.Broadcast, 0, none⟩]
    [⟨"on".data, Destination.Node 3, 1, none⟩]
    ⟨"bad".data, Destination.Sender, 9, some 1⟩ (by decide)

/-! ## Mesh packets (`src/bot/incoming.rs`) and the session key
(`src/bot/mod.rs`: `Bot::traceroute_session_key`)

A `MeshPacket`'s payload variant is `Decoded(Data)` or still encrypted.
Protobuf and UTF-8 decoding of payload bytes is done by external crates
(`prost`, `std`), so the embedding carries those decoders' results as
fields of the `Data` model: `payload_routing` is the payload decoded as a
`Routing` message (`none` = decode error; the inner option is
`Routing.variant`), `payload_position` the decoded optional
`(latitude_i, longitude_i)` pair, `payload_text` the UTF-8 decode of the
payload (`none` = invalid UTF-8). The source fields `from` and `to` are
named `from_node` and `to_num` here, both being Lean keywords.
`rx_snr : f32` is used only for logging
and an `!= 0` presence test symmetric to `rx_rssi`; being floating point it
is left out of the model, and the packet-persistence effect below records
the packet's identifying fields. -/

inductive PortNum
  | PositionApp
  | TelemetryApp
  | TracerouteApp
  | NeighborinfoApp
  | RoutingApp
  | TextMessageApp
  | OtherApp
deriving Repr, DecidableEq

structure RouteDiscovery where
  route : List Nat
  route_back : List Nat
deriving Repr, DecidableEq

inductive RoutingVariant
  | RouteRequest (rd : RouteDiscovery)
  | RouteReply (rd : RouteDiscovery)
  | ErrorReason (code : Nat)
deriving Repr, DecidableEq

structure DataMsg where
  portnum : PortNum
  request_id : Nat
  payload_routing : Option (Option RoutingVariant)
  payload_position : Option (Option Int × Option Int)
  payload_text : Option (List Char)
deriving Repr, DecidableEq

inductive MeshPayloadVariant
  | decoded (data : DataMsg)
  | encrypted (payload : List Nat)
deriving Repr, DecidableEq

structure MeshPacket where
  from_node : Nat
  to_num : Nat
  id : Nat
  channel : Nat
  via_mqtt : Bool
  hop_start : Nat
  hop_limit : Nat
  rx_rssi : Int
  payload_variant : Option MeshPayloadVariant
deriving Repr, DecidableEq

/-- Lowercase hexadecimal digit for a value below 16. -/
def hexDigit (n : Nat) : Char :=
  if n < 10 then Char.ofNat ('0'.toNat + n) else Char.ofNat ('a'.toNat + (n - 10))

/-- Rust's `format!("{:08x}", n)` for a `u32` value: eight lowercase hex
digits, zero-padded. -/
def hex8 (n : Nat) : String :=
  String.mk (((List.range 8).reverse).map (fun i => hexDigit (n / 16 ^ i % 16)))

/-- `Bot::traceroute_session_key` from `src/bot/mod.rs`:
`req:{src:08x}:{dst:08x or "broadcast"}:{request_mesh_id:08x}`. -/
def traceroute_session_key (src_node : Nat) (dst_node : Option Nat)
    (request_mesh_id : Nat) : String :=
  let dst := match dst_node with
    | some n => hex8 n
    | none => "broadcast"
  "req:" ++ hex8 src_node ++ ":" ++ dst ++ ":" ++ hex8 request_mesh_id

/-- The session-attribution logic of the Traceroute branch of
`handle_mesh_packet`: the session's source, destination and request mesh id
as derived from an observed packet. A reply (`request_id != 0`) attributes
the session to the reversed direction and to the original request's mesh
id. -/
def traceroute_session_parts (p : MeshPacket) (data : DataMsg) :
    Nat × Option Nat × Nat :=
  let to_node := if p.to_num = 0 then none else some p.to_num
  let is_response := data.request_id ≠ 0
  let session_src := if is_response then to_node.getD p.from_node else p.from_node
  let session_dst := if is_response then some p.from_node else to_node
  let request_mesh_id := if is_response then data.request_id else p.id
  (session_src, session_dst, request_mesh_id)

/-- The trace key computed by the Traceroute branch of `handle_mesh_packet`. -/
def traceroute_trace_key (p : MeshPacket) (data : DataMsg) : String :=
  let parts := traceroute_session_parts p data
  traceroute_session_key parts.1 parts.2.1 parts.2.2

/-- Claim C5, counterexample: for a traceroute request from node 0xAAAA to
node 0xBBBB with mesh id 100 (request_id 0), the derived key is not
`"req:0000aaaa:0000bbbb:100"`: the final component is written `{:08x}` like
the node ids, giving `"req:0000aaaa:0000bbbb:00000064"`. -/
theorem trace_key_counterexample :
    traceroute_trace_key
        ⟨0xAAAA, 0xBBBB, 100, 0, false, 3, 3, 0, none⟩
        ⟨PortNum.TracerouteApp, 0, none, none, none⟩ ≠
      "req:0000aaaa:0000bbbb:100" := by decide

/-- Claim C5, amended: the key is derived as
`req:{src:08x}:{dst:08x | "broadcast"}:{request_mesh_id:08x}` with every
component zero-padded lowercase hex, so the request above creates the
session under `"req:0000aaaa:0000bbbb:00000064"`; and a reply packet
(reversed direction, `request_id` = the request's mesh id) derives the same
key as its request. -/
theorem traceroute_session_key_spec :
    traceroute_trace_key
        ⟨0xAAAA, 0xBBBB, 100, 0, false, 3, 3, 0, none⟩
        ⟨PortNum.TracerouteApp, 0, none, none, none⟩ =
      "req:0000aaaa:0000bbbb:00000064"
    ∧ ∀ (p p' : MeshPacket) (d d' : DataMsg),
        d.request_id = 0 → p.from_node ≠ 0 → p.to_num ≠ 0 →
        p'.to_num = p.from_node → p'.from_node = p.to_num →
        d'.request_id = p.id → p.id ≠ 0 →
        traceroute_trace_key p' d' = traceroute_trace_key p d := by
  constructor
  · decide
  · intro p p' d d' h0 hfrom hto h1 h2 h3 hid
    simp [traceroute_trace_key, traceroute_session_parts, h0, h1, h2, h3,
      hfrom, hto, hid]

/-- Witness for `traceroute_session_key_spec` (S4's reply step: the reply
from 0xBBBB to 0xAAAA with request_id 100 maps to the request's key). -/
theorem traceroute_session_key_spec_witness :
    traceroute_trace_key
        ⟨0xBBBB, 0xAAAA, 555, 0, false, 3, 3, 0, none⟩
        ⟨PortNum.TracerouteApp, 100, none, none, none⟩ =
      traceroute_trace_key
        ⟨0xAAAA, 0xBBBB, 100, 0, false, 3, 3, 0, none⟩
        ⟨PortNum.TracerouteApp, 0, none, none, none⟩ :=
  traceroute_session_key_spec.2
    ⟨0xAAAA, 0xBBBB, 100, 0, false, 3, 3, 0, none⟩
    ⟨0xBBBB, 0xAAAA, 555, 0, false, 3, 3, 0, none⟩
    ⟨PortNum.TracerouteApp, 0, none, none, none⟩
    ⟨PortNum.TracerouteApp, 100, none, none, none⟩
    rfl (by decide) (by decide) rfl rfl rfl (by decide)

/-! ## Incoming packet handling (`src/bot/incoming.rs`: `handle_mesh_packet`)

The handler's observable actions are modeled as an effect trace: store
writes (`log_packet_with_mesh_id` via `log_incoming_packet`,
`update_position`, `log_traceroute_observation`), the routing-correlation
session lookup, the bridge publish, and the command dispatch. In the model
store calls succeed (a failed packet insert in the source only skips the
dependent traceroute observation; store errors are logged and swallowed).
The routing branch records the correlation lookup; whether it then appends
an observation depends on the store's contents, outside this per-packet
trace. Rust's `str::trim` is modeled over ASCII whitespace. -/

inductive BotEffect
  | logPacket (from_node : Nat) (to_node : Option Nat) (channel : Nat)
      (mesh_packet_id : Nat) (packet_type : String)
  | updatePosition (node : Nat) (lat_i lon_i : Int)
  | tracerouteObservation (trace_key : String) (session_src : Nat)
      (session_dst : Option Nat) (via_mqtt : Bool)
      (request_hops request_hop_start response_hops response_hop_start : Option Nat)
      (request_route response_route : List Nat)
  | routingSessionLookup (request_id : Nat)
  | bridgePublish (sender_id : Nat) (text : List Char) (channel : Nat)
  | dispatchCommand (sender_id : Nat) (text : List Char)
deriving Repr, DecidableEq

/-- `Bot::decode_traceroute_routes`: a route request contributes its forward
and backward routes; a route reply contributes only a response-side route,
falling back to `route` when `route_back` is empty; anything else (decode
failure, no variant, error reason) contributes nothing. -/
def decode_traceroute_routes (data : DataMsg) : List Nat × List Nat :=
  match data.payload_routing with
  | some (some (RoutingVariant.RouteRequest rd)) => (rd.route, rd.route_back)
  | some (some (RoutingVariant.RouteReply rd)) =>
    if rd.route_back = [] then ([], rd.route) else ([], rd.route_back)
  | _ => ([], [])

/-- `Bot::rf_metadata`, minus the `f32` snr (treated like rssi in the
source): significant rssi, `hop_start.checked_sub(hop_limit)`, significant
hop start. -/
def rf_metadata (p : MeshPacket) : Option Int × Option Nat × Option Nat :=
  (if p.rx_rssi ≠ 0 then some p.rx_rssi else none,
   if p.hop_limit ≤ p.hop_start then some (p.hop_start - p.hop_limit) else none,
   if 0 < p.hop_start then some p.hop_start else none)

/-- Rust's `str::trim` (over ASCII whitespace). -/
def rustTrim (s : List Char) : List Char :=
  ((s.dropWhile Char.isWhitespace).reverse.dropWhile Char.isWhitespace).reverse

/-- `Bot::handle_mesh_packet` as its trace of effects, in program order. A
payload that is not `Decoded` returns immediately; otherwise the packet is
logged under its port's packet type and the port-specific actions follow
(position update, traceroute observation, routing correlation lookup,
bridge publish and command dispatch for text — an invalid-UTF-8 text
payload is dropped before even being logged). -/
def handle_mesh_packet (my_node_id : Nat) (p : MeshPacket) : List BotEffect :=
  match p.payload_variant with
  | some (MeshPayloadVariant.decoded data) =>
    let md := rf_metadata p
    let hop_count := md.2.1
    let hop_start := md.2.2
    let to_node := if p.to_num = 0 then none else some p.to_num
    match data.portnum with
    | PortNum.PositionApp =>
      BotEffect.logPacket p.from_node to_node p.channel p.id "position" ::
      (match data.payload_position with
       | some (some lat_i, some lon_i) =>
         if lat_i ≠ 0 ∨ lon_i ≠ 0 then
           [BotEffect.updatePosition p.from_node lat_i lon_i]
         else []
       | _ => [])
    | PortNum.TelemetryApp =>
      [BotEffect.logPacket p.from_node to_node p.channel p.id "telemetry"]
    | PortNum.TracerouteApp =>
      let routes := decode_traceroute_routes data
      let request_route := routes.1
      let response_route := routes.2
      let parts := traceroute_session_parts p data
      let is_response := data.request_id ≠ 0
      [BotEffect.logPacket p.from_node to_node p.channel p.id "traceroute",
       BotEffect.tracerouteObservation (traceroute_trace_key p data)
         parts.1 parts.2.1 p.via_mqtt
         (if is_response then none else hop_count)
         (if is_response then none else hop_start)
         (if is_response then hop_count else none)
         (if is_response then hop_start else none)
         (if is_response then [] else request_route)
         (if is_response then
            (if response_route = [] then request_route else response_route)
          else response_route)]
    | PortNum.NeighborinfoApp =>
      [BotEffect.logPacket p.from_node to_node p.channel p.id "neighborinfo"]
    | PortNum.RoutingApp =>
      BotEffect.logPacket p.from_node to_node p.channel p.id "routing" ::
      (if data.request_id ≠ 0 then
         [BotEffect.routingSessionLookup data.request_id]
       else [])
    | PortNum.TextMessageApp =>
      match data.payload_text with
      | none => []
      | some text =>
        BotEffect.logPacket p.from_node to_node p.channel p.id "text" ::
        ((if ¬ p.to_num = my_node_id ∧ ¬ List.isPrefixOf "[TG:".data text ∧
              ¬ List.isPrefixOf "[DC:".data text then
            [BotEffect.bridgePublish p.from_node (rustTrim text) p.channel]
          else []) ++
         [BotEffect.dispatchCommand p.from_node (rustTrim text)])
    | PortNum.OtherApp =>
      [BotEffect.logPacket p.from_node to_node p.channel p.id "other"]
  | _ => []

/-- Claim C9: a received mesh packet whose payload variant is not `Decoded`
(for example a still-encrypted packet, or a missing payload) makes
`handle_mesh_packet` return immediately with no observable effect: no
packet row persisted, no bridge publish, no command dispatch, no
traceroute-session action. -/
theorem handle_mesh_packet_non_decoded (my_node_id : Nat) (p : MeshPacket)
    (h : ∀ d : DataMsg, p.payload_variant ≠ some (MeshPayloadVariant.decoded d)) :
    handle_mesh_packet my_node_id p = [] := by
  cases hv : p.payload_variant with
  | none => simp [handle_mesh_packet, hv]
  | some v =>
    cases v with
    | decoded d => exact absurd hv (h d)
    | encrypted bs => simp [handle_mesh_packet, hv]

/-- Witness for `handle_mesh_packet_non_decoded`: an encrypted packet. -/
theorem handle_mesh_packet_non_decoded_witness :
    handle_mesh_packet 1
      ⟨0xAAAA, 1, 7, 0, false, 3, 3, 0,
        some (MeshPayloadVariant.encrypted [1, 2, 3])⟩ = [] :=
  handle_mesh_packet_non_decoded 1
    ⟨0xAAAA, 1, 7, 0, false, 3, 3, 0,
      some (MeshPayloadVariant.encrypted [1, 2, 3])⟩
    (fun d hd => by simp at hd)

/-! ## Traceroute session store (`src/db.rs`: `traceroute_status`,
`log_traceroute_observation`)

The two tables written by `log_traceroute_observation` are modeled as row
lists; `now` (`Utc::now().timestamp()`, an `i64`) is an explicit argument,
and `packet_row_id` (an `i64` rowid from the packets table) is an `Int`.
Row ids come from counters, mirroring AUTOINCREMENT. `trace_key` is UNIQUE,
so the lookup takes the first match (`LIMIT 1`). All writes of one call
form one transaction in the source; the model applies them as one state
transition. -/

structure TracerouteSession where
  id : Nat
  trace_key : String
  first_seen : Int
  last_seen : Int
  src_node : Nat
  dst_node : Option Nat
  via_mqtt : Bool
  request_hops : Option Nat
  request_hop_start : Option Nat
  response_hops : Option Nat
  response_hop_start : Option Nat
  request_packet_id : Option Int
  response_packet_id : Option Int
  status : String
  sample_count : Nat
deriving Repr, DecidableEq

structure TracerouteHop where
  id : Nat
  session_id : Nat
  direction : String
  hop_index : Nat
  node_id : Nat
  observed_at : Int
  packet_id_ref : Option Int
  source_kind : String
deriving Repr, DecidableEq

structure DbState where
  sessions : List TracerouteSession
  hops : List TracerouteHop
  next_session_id : Nat
  next_hop_id : Nat
deriving Repr, DecidableEq

/-- `Db::traceroute_status`: a side is present when it has a hop count or
the current observation lists at least one hop for it. -/
def traceroute_status (request_hops response_hops : Option Nat)
    (request_route_len response_route_len : Nat) : String :=
  let req_present := request_hops.isSome || decide (0 < request_route_len)
  let res_present := response_hops.isSome || decide (0 < response_route_len)
  if req_present && res_present then "complete"
  else if req_present || res_present then "partial"
  else "observed"

/-- One `INSERT INTO traceroute_session_hops` loop of
`log_traceroute_observation`: append one row per hop of `route`, with
consecutive `hop_index` values from 0 and fresh row ids. -/
def appendHops (direction source_kind : String) (session_id : Nat) (now : Int)
    (packet_row_id : Int) (route : List Nat) (st : DbState) : DbState :=
  route.enum.foldl
    (fun acc ixnode =>
      { acc with
        hops := acc.hops ++
          [⟨acc.next_hop_id, session_id, direction, ixnode.1, ixnode.2, now,
            some packet_row_id, source_kind⟩]
        next_hop_id := acc.next_hop_id + 1 })
    st

/-- The UPDATE of the merge branch of `log_traceroute_observation`:
hop-count fields filled with `new.or(existing)`, packet-id references set
when the corresponding merged hop count is present (keeping an existing
reference, per COALESCE), the status recomputed from the merged hop counts
and the current observation's route list lengths, `first_seen` the minimum,
`last_seen` advanced, `sample_count` incremented. -/
def mergedSessionRow (s : TracerouteSession) (now : Int) (packet_row_id : Int)
    (src_node : Nat) (dst_node : Option Nat) (via_mqtt : Bool)
    (request_hops request_hop_start response_hops response_hop_start : Option Nat)
    (request_route response_route : List Nat) : TracerouteSession :=
  let merged_req_hops := request_hops.or s.request_hops
  let merged_req_start := request_hop_start.or s.request_hop_start
  let merged_res_hops := response_hops.or s.response_hops
  let merged_res_start := response_hop_start.or s.response_hop_start
  { s with
    first_seen := min s.first_seen now
    last_seen := now
    src_node := src_node
    dst_node := dst_node
    via_mqtt := via_mqtt
    request_hops := merged_req_hops
    request_hop_start := merged_req_start
    response_hops := merged_res_hops
    response_hop_start := merged_res_start
    request_packet_id :=
      if merged_req_hops.isSome then
        s.request_packet_id.or (some packet_row_id)
      else s.request_packet_id
    response_packet_id :=
      if merged_res_hops.isSome then
        s.response_packet_id.or (some packet_row_id)
      else s.response_packet_id
    status := traceroute_status merged_req_hops merged_res_hops
      request_route.length response_route.length
    sample_count := s.sample_count + 1 }

/-- The INSERT of the create branch of `log_traceroute_observation`:
`first_seen = last_seen = now`, packet-id references set from the present
sides, `sample_count = 1`. -/
def newSessionRow (id : Nat) (now : Int) (packet_row_id : Int)
    (trace_key : String) (src_node : Nat) (dst_node : Option Nat)
    (via_mqtt : Bool)
    (request_hops request_hop_start response_hops response_hop_start : Option Nat)
    (request_route response_route : List Nat) : TracerouteSession :=
  { id := id
    trace_key := trace_key
    first_seen := now
    last_seen := now
    src_node := src_node
    dst_node := dst_node
    via_mqtt := via_mqtt
    request_hops := request_hops
    request_hop_start := request_hop_start
    response_hops := response_hops
    response_hop_start := response_hop_start
    request_packet_id :=
      if request_hops.isSome then some packet_row_id else none
    response_packet_id :=
      if response_hops.isSome then some packet_row_id else none
    status := traceroute_status request_hops response_hops
      request_route.length response_route.length
    sample_count := 1 }

/-- `Db::log_traceroute_observation`: look up the session by `trace_key`;
merge into it or insert a fresh row; then append the hop rows of both route
lists unconditionally. -/
def log_traceroute_observation (st : DbState) (now : Int) (packet_row_id : Int)
    (trace_key : String) (src_node : Nat) (dst_node : Option Nat)
    (via_mqtt : Bool)
    (request_hops request_hop_start response_hops response_hop_start : Option Nat)
    (request_route response_route : List Nat) : DbState :=
  let found := st.sessions.find? (fun s => s.trace_key = trace_key)
  let upserted : DbState :=
    match found with
    | some s =>
      let updated := mergedSessionRow s now packet_row_id src_node dst_node
        via_mqtt request_hops request_hop_start response_hops
        response_hop_start request_route response_route
      { st with
        sessions := st.sessions.map (fun r => if r.id = s.id then updated else r) }
    | none =>
      let row := newSessionRow st.next_session_id now packet_row_id trace_key
        src_node dst_node via_mqtt request_hops request_hop_start
        response_hops response_hop_start request_route response_route
      { st with
        sessions := st.sessions ++ [row]
        next_session_id := st.next_session_id + 1 }
  let session_id := match found with
    | some s => s.id
    | none => st.next_session_id
  appendHops "response" "route_back" session_id now packet_row_id response_route
    (appendHops "request" "route" session_id now packet_row_id request_route
      upserted)

/-- Appending hop rows leaves the sessions table unchanged. -/
theorem appendHops_sessions (direction source_kind : String) (session_id : Nat)
    (now : Int) (pid : Int) (route : List Nat) (st : DbState) :
    (appendHops direction source_kind session_id now pid route st).sessions =
      st.sessions := by
  unfold appendHops
  suffices h : ∀ (l : List (Nat × Nat)) (acc : DbState),
      (l.foldl (fun acc ixnode =>
        { acc with
          hops := acc.hops ++
            [⟨acc.next_hop_id, session_id, direction, ixnode.1, ixnode.2, now,
              some pid, source_kind⟩]
          next_hop_id := acc.next_hop_id + 1 }) acc).sessions = acc.sessions by
    exact h route.enum st
  intro l
  induction l with
  | nil => intro acc; rfl
  | cons x xs ih =>
    intro acc
    rw [List.foldl_cons]
    exact (ih _).trans rfl

/-- Case analysis of `traceroute_status` against side presence. -/
theorem traceroute_status_spec (a b : Option Nat) (rl sl : Nat) :
    ((traceroute_status a b rl sl = "complete") ↔
      ((a.isSome = true ∨ 0 < rl) ∧ (b.isSome = true ∨ 0 < sl)))
    ∧ ((traceroute_status a b rl sl = "partial") ↔
      (((a.isSome = true ∨ 0 < rl) ∧ ¬ (b.isSome = true ∨ 0 < sl)) ∨
       (¬ (a.isSome = true ∨ 0 < rl) ∧ (b.isSome = true ∨ 0 < sl))))
    ∧ ((traceroute_status a b rl sl = "observed") ↔
      (¬ (a.isSome = true ∨ 0 < rl) ∧ ¬ (b.isSome = true ∨ 0 < sl))) := by
  unfold traceroute_status
  by_cases ha : a.isSome = true <;> by_cases hrl : 0 < rl <;>
    by_cases hb : b.isSome = true <;> by_cases hsl : 0 < sl <;>
    simp [ha, hrl, hb, hsl]

/-- Claim C2, amended: after every call to `log_traceroute_observation`
(create or merge), the stored session for the key has status `"complete"`
iff both sides are present, `"partial"` iff exactly one side is, and
`"observed"` iff neither — where a side is present when the stored (merged)
hop count is non-null or the CURRENT observation's route list for that side
is non-empty. Hop rows persisted by earlier observations of the same
`trace_key` do not count as evidence: only the stored hop-count columns
carry over between observations. -/
theorem log_traceroute_observation_status (st : DbState) (now : Int)
    (pid : Int) (key : String) (src : Nat) (dst : Option Nat) (via : Bool)
    (rq rqs rs rss : Option Nat) (rroute sroute : List Nat) :
    ∃ s ∈ (log_traceroute_observation st now pid key src dst via
        rq rqs rs rss rroute sroute).sessions,
      s.trace_key = key
      ∧ ((s.status = "complete") ↔
        ((s.request_hops.isSome = true ∨ rroute ≠ []) ∧
         (s.response_hops.isSome = true ∨ sroute ≠ [])))
      ∧ ((s.status = "partial") ↔
        (((s.request_hops.isSome = true ∨ rroute ≠ []) ∧
          ¬ (s.response_hops.isSome = true ∨ sroute ≠ [])) ∨
         (¬ (s.request_hops.isSome = true ∨ rroute ≠ []) ∧
          (s.response_hops.isSome = true ∨ sroute ≠ []))))
      ∧ ((s.status = "observed") ↔
        (¬ (s.request_hops.isSome = true ∨ rroute ≠ []) ∧
         ¬ (s.response_hops.isSome = true ∨ sroute ≠ []))) := by
  have hlen : ∀ l : List Nat, (0 < l.length) ↔ l ≠ [] := by
    intro l
    exact List.length_pos
  unfold log_traceroute_observation
  simp only [appendHops_sessions]
  cases hfound : st.sessions.find? (fun s => s.trace_key = key) with
  | none =>
    refine ⟨newSessionRow st.next_session_id now pid key src dst via
      rq rqs rs rss rroute sroute,
      List.mem_append_right _ (List.mem_singleton_self _), rfl, ?_, ?_, ?_⟩
    · simp only [newSessionRow]
      rw [← hlen rroute, ← hlen sroute]
      exact (traceroute_status_spec rq rs rroute.length sroute.length).1
    · simp only [newSessionRow]
      rw [← hlen rroute, ← hlen sroute]
      exact (traceroute_status_spec rq rs rroute.length sroute.length).2.1
    · simp only [newSessionRow]
      rw [← hlen rroute, ← hlen sroute]
      exact (traceroute_status_spec rq rs rroute.length sroute.length).2.2
  | some s0 =>
    have hs0 : s0 ∈ st.sessions := List.mem_of_find?_eq_some hfound
    have hkey : s0.trace_key = key := by
      have := List.find?_some hfound
      simpa using this
    refine ⟨mergedSessionRow s0 now pid src dst via rq rqs rs rss rroute sroute,
      List.mem_map.mpr ⟨s0, hs0, by rw [if_pos rfl]⟩, hkey, ?_, ?_, ?_⟩
    · simp only [mergedSessionRow]
      rw [← hlen rroute, ← hlen sroute]
      exact (traceroute_status_spec (rq.or s0.request_hops) (rs.or s0.response_hops)
        rroute.length sroute.length).1
    · simp only [mergedSessionRow]
      rw [← hlen rroute, ← hlen sroute]
      exact (traceroute_status_spec (rq.or s0.request_hops) (rs.or s0.response_hops)
        rroute.length sroute.length).2.1
    · simp only [mergedSessionRow]
      rw [← hlen rroute, ← hlen sroute]
      exact (traceroute_status_spec (rq.or s0.request_hops) (rs.or s0.response_hops)
        rroute.length sroute.length).2.2

/-- The store after two observations of one trace key: first a request-side
route hop with no hop count, then a response-side hop count. -/
def statusCounterexampleState : DbState :=
  log_traceroute_observation
    (log_traceroute_observation ⟨[], [], 1, 1⟩ 0 1
      "req:0000aaaa:0000bbbb:00000064" 0xAAAA (some 0xBBBB) false
      none none none none [0xCCCC] [])
    10 2 "req:0000aaaa:0000bbbb:00000064" 0xAAAA (some 0xBBBB) false
    none none (some 1) (some 3) [] []

/-- Claim C2, counterexample: hop rows persisted by an earlier observation
of the same `trace_key` do not count as status evidence. After a first
observation carrying only a request-direction route hop (no hop count) and
a second carrying a response hop count, the session has a persisted
request-direction hop row and response-side evidence — the claim as stated
demands status `"complete"` — yet the stored status is `"partial"`: the
merge recomputes the status from the merged hop-count columns and the
current call's route lists only. -/
theorem session_status_counterexample :
    ∃ s ∈ statusCounterexampleState.sessions,
      (∃ h ∈ statusCounterexampleState.hops,
        h.session_id = s.id ∧ h.direction = "request")
      ∧ s.response_hops.isSome = true ∧ s.status ≠ "complete" := by decide

/-- The store after one request observation (hop count 1, route `[0xCCCC]`,
packet row id 1). -/
def dupHopsState1 : DbState :=
  log_traceroute_observation ⟨[], [], 1, 1⟩ 0 1
    "req:0000aaaa:0000bbbb:00000064" 0xAAAA (some 0xBBBB) false
    (some 1) (some 3) none none [0xCCCC] []

/-- The same observation repeated later with the identical packet row id
reference and request route. -/
def dupHopsState2 : DbState :=
  log_traceroute_observation dupHopsState1 10 1
    "req:0000aaaa:0000bbbb:00000064" 0xAAAA (some 0xBBBB) false
    (some 1) (some 3) none none [0xCCCC] []

/-- Claim C4 (code bug): repeating the same request observation with the
same packet row id reference advances `last_seen` and increments
`sample_count` as claimed, but also appends the request-direction hop rows
again — the hop-insert loops run unconditionally, so the second identical
call duplicates the `(hop_index, node_id, packet_id_ref)` row and the set
of request-direction hop rows for the session changes. -/
theorem log_traceroute_observation_duplicates_hops :
    (dupHopsState1.hops.filter (fun h => h.direction = "request")).map
        (fun h => (h.hop_index, h.node_id, h.packet_id_ref)) =
      [(0, 0xCCCC, some 1)]
    ∧ (dupHopsState2.hops.filter (fun h => h.direction = "request")).map
        (fun h => (h.hop_index, h.node_id, h.packet_id_ref)) =
      [(0, 0xCCCC, some 1), (0, 0xCCCC, some 1)]
    ∧ (∃ s ∈ dupHopsState2.sessions, s.sample_count = 2 ∧ s.last_seen = 10) := by
  exact ⟨by decide, by decide, by decide⟩

end Meshenger
